import Mathlib

/-!
Verification of the booking-grid logic of the padel dashboard
(`src/unnamed/part_000`, the `Booking` React component).

The component's non-presentational logic is embedded shallowly:

* `convertApiResponse` — turns the API payload's `booked_slots` collection
  into a string-keyed lookup table (a JavaScript object, modelled as an
  association list with insert-or-overwrite semantics);
* `dates` — materializes the inclusive day range `[startDate, endDate]`
  (calendar days modelled as epoch-day integers);
* `times` — the fixed list of 22 hour-range labels;
* `getBookingKey` / `getBookingStatus` / `isBooked` — the per-cell lookup
  used while rendering the grid;
* `fetchBookings` — the state transition performed by a fetch, over the
  component state `(bookings, loading, error)`.

JavaScript peculiarities that matter are modelled explicitly: template
interpolation of `undefined` fields produces the string `"undefined"`,
`undefined + 1` is `NaN` and stringifies to `"NaN"`, `padStart(2, '0')`
pads only strings shorter than two characters, and `!!v` on a string is
true exactly for non-empty strings.
-/

namespace KindyPadel

/-- `String(x).padStart(2, '0')`: left-pad with `'0'` up to length 2. -/
def padStart2 (s : String) : String :=
  if s.length ≥ 2 then s else ⟨List.replicate (2 - s.length) '0' ++ s.data⟩

/-- One record of the API's `booked_slots` collection.  `date` and `hour`
are `Option`s so that records with missing fields (JS `undefined`) can be
expressed; `booked` is the opaque marker string. -/
structure Slot where
  date : Option String
  hour : Option Int
  booked : String
deriving DecidableEq, Repr

/-- JS `String(slot.hour)`: `undefined` stringifies to `"undefined"`. -/
def jsHourStr : Option Int → String
  | none => "undefined"
  | some h => toString h

/-- JS `String(slot.hour + 1)`: `undefined + 1` is `NaN`, which
stringifies to `"NaN"`. -/
def jsHourSuccStr : Option Int → String
  | none => "NaN"
  | some h => toString (h + 1)

/-- JS template interpolation `${slot.date}` with a possibly-missing field. -/
def jsDateStr : Option String → String
  | none => "undefined"
  | some d => d

/-- The hour-range label built for a record:
`` `${startHour}:00 - ${endHour}:00` `` with both hours zero-padded. -/
def timeRange (hour : Option Int) : String :=
  padStart2 (jsHourStr hour) ++ ":00 - " ++ padStart2 (jsHourSuccStr hour) ++ ":00"

/-- The lookup-table key built for a record: `` `${slot.date}_${timeRange}` ``. -/
def slotKey (s : Slot) : String :=
  jsDateStr s.date ++ "_" ++ timeRange s.hour

/-- A JavaScript object with string keys and string values, as an
association list whose order is key-insertion order. -/
abbrev Obj := List (String × String)

/-- `obj[k] = v` on a JS object: overwrite in place if the key exists,
otherwise append a fresh entry. -/
def objInsert (m : Obj) (k v : String) : Obj :=
  if (m.map Prod.fst).contains k then
    m.map (fun p => if p.1 = k then (p.1, v) else p)
  else
    m ++ [(k, v)]

/-- `obj[k]` on a JS object: the value at `k`, or `undefined` (`none`). -/
def objGet : Obj → String → Option String
  | [], _ => none
  | p :: t, k => if p.1 = k then some p.2 else objGet t k

/-- The API response: `booked_slots` may be absent (the code guards with
`if (apiData.booked_slots)`). -/
structure ApiResponse where
  booked_slots : Option (List Slot)

/-- The loop body of `convertApiResponse`: one record stores its `booked`
field under its key. -/
def convertStep (m : Obj) (s : Slot) : Obj :=
  objInsert m (slotKey s) s.booked

/-- The `forEach` over `Object.values(apiData.booked_slots)`. -/
def convertSlots (slots : List Slot) : Obj :=
  slots.foldl convertStep []

/-- `convertApiResponse`: build the lookup table from the API response,
starting from the empty object. -/
def convertApiResponse (apiData : ApiResponse) : Obj :=
  match apiData.booked_slots with
  | none => []
  | some slots => convertSlots slots

/-- `dates`: the inclusive day sequence of `[startDate, endDate]`.
Calendar days are epoch-day integers; `totalDays = end.diff(start) + 1`,
and `Array.from({length: n}, (_, i) => start.add(i, 'day'))` yields the
empty array when `n ≤ 0` (JS coerces a negative length to 0). -/
def dates (startDate endDate : Int) : List Int :=
  (List.range (endDate - startDate + 1).toNat).map (fun (i : Nat) => startDate + (i : Int))

/-- `times`: the fixed, hardcoded list of hour-range labels. -/
def times : List String :=
  [ "05:00 - 06:00", "06:00 - 07:00", "07:00 - 08:00", "08:00 - 09:00",
    "09:00 - 10:00", "10:00 - 11:00", "11:00 - 12:00", "14:00 - 15:00",
    "15:00 - 16:00", "16:00 - 17:00", "17:00 - 18:00", "18:00 - 19:00",
    "19:00 - 20:00", "20:00 - 21:00", "21:00 - 22:00", "22:00 - 23:00",
    "23:00 - 00:00", "00:00 - 01:00", "01:00 - 02:00", "02:00 - 03:00",
    "03:00 - 04:00", "04:00 - 05:00" ]

/-- `getBookingKey(date, time)`: the grid cell's computed key,
`` `${date.format("YYYY-MM-DD")}_${time}` `` — the formatted date is the
`dateStr` argument. -/
def getBookingKey (dateStr : String) (time : String) : String :=
  dateStr ++ "_" ++ time

/-- `getBookingStatus(date, time)`: `bookings[getBookingKey(date, time)]`. -/
def getBookingStatus (bookings : Obj) (dateStr time : String) : Option String :=
  objGet bookings (getBookingKey dateStr time)

/-- JS truthiness of a string-or-undefined value: `!!v`. -/
def truthy : Option String → Bool
  | none => false
  | some v => v ≠ ""

/-- `isBooked`: the cell's rendered state; `true` selects the red
"RESERVED" styling, `false` the green "KOSONG" (available) styling. -/
def isBooked (bookings : Obj) (dateStr time : String) : Bool :=
  truthy (getBookingStatus bookings dateStr time)

/-- The visible label of a grid cell: the reserved styling shows
"RESERVED", the available styling shows "KOSONG". -/
def cellLabel (bookings : Obj) (dateStr time : String) : String :=
  if isBooked bookings dateStr time then "RESERVED" else "KOSONG"

/-- The API contract for one record (spec §6): `date` present and `hour`
an integer in 0–23. -/
def apiWellFormed (s : Slot) : Bool :=
  match s.date, s.hour with
  | some _, some h => decide (0 ≤ h) && decide (h ≤ 23)
  | _, _ => false

/-- The hour-range label of the grid row that starts at hour `h` of the
day, with the end hour wrapping past midnight (`23:00 - 00:00`). -/
def gridLabel (h : Nat) : String :=
  padStart2 (toString h) ++ ":00 - " ++ padStart2 (toString ((h + 1) % 24)) ++ ":00"

/-- The component state touched by a fetch. -/
structure ComponentState where
  bookings : Obj
  loading : Bool
  error : Option String
deriving DecidableEq, Repr

/-- Initial component state: `useState({})`, `useState(false)`,
`useState(null)` — bookings, loading, error in that order. -/
def initialState : ComponentState :=
  ⟨[], false, none⟩

/-- Outcome of the awaited `axios.get`: a parsed response, or a rejection
(network error or non-2xx status). -/
inductive FetchResult where
  | success (data : ApiResponse)
  | failure

/-- `fetchBookings`: sets `loading`, clears `error`, then on success
replaces `bookings` with the converted response, on failure sets the
static localized error message and leaves `bookings` untouched; `finally`
clears `loading`. The resulting state after the whole call: -/
def fetchBookings (st : ComponentState) (r : FetchResult) : ComponentState :=
  match r with
  | .success data => ⟨convertApiResponse data, false, none⟩
  | .failure => ⟨st.bookings, false, some "Gagal memuat data booking"⟩

/-! ### Association-list lemmas for the JS-object model -/

theorem objGet_nil (k : String) : objGet [] k = none := rfl

/-- A key outside the key sequence reads as `undefined`. -/
theorem objGet_eq_none_of_not_contains (m : Obj) (k : String)
    (h : ¬ (m.map Prod.fst).contains k = true) : objGet m k = none := by
  induction m with
  | nil => rfl
  | cons p t ih =>
      simp only [List.map_cons, List.contains_cons, Bool.or_eq_true, beq_iff_eq] at h
      push_neg at h
      have hp : ¬ p.1 = k := fun hpk => h.1 hpk.symm
      simp only [objGet, if_neg hp]
      exact ih h.2

/-- A key in the key sequence reads as a defined value. -/
theorem objGet_isSome_of_contains (m : Obj) (k : String)
    (h : (m.map Prod.fst).contains k = true) : (objGet m k).isSome := by
  induction m with
  | nil => simp at h
  | cons p t ih =>
      simp only [List.map_cons, List.contains_cons, Bool.or_eq_true, beq_iff_eq] at h
      by_cases hp : p.1 = k
      · simp [objGet, hp]
      · have ht : (t.map Prod.fst).contains k = true := by
          rcases h with h | h
          · exact absurd h.symm hp
          · exact h
        simp only [objGet, if_neg hp]
        exact ih ht

/-- Overwriting every occurrence of `k` makes `k` read as the new value
(when `k` was present at all). -/
theorem objGet_replace (m : Obj) (k v : String) :
    objGet (m.map (fun p => if p.1 = k then (p.1, v) else p)) k =
      (objGet m k).map (fun _ => v) := by
  induction m with
  | nil => rfl
  | cons p t ih =>
      by_cases hp : p.1 = k
      · simp [objGet, hp]
      · simp [objGet, hp, ih]

/-- Overwriting occurrences of `k'` does not disturb reads of `k ≠ k'`. -/
theorem objGet_replace_other (m : Obj) (k k' v : String) (hne : k ≠ k') :
    objGet (m.map (fun p => if p.1 = k' then (p.1, v) else p)) k = objGet m k := by
  induction m with
  | nil => rfl
  | cons p t ih =>
      by_cases hp : p.1 = k' <;> by_cases hk : p.1 = k
      · exact absurd (hk.symm.trans hp) hne
      · simp [objGet, hp, hk, Ne.symm hne, ih]
      · simp [objGet, hp, hk, hne]
      · simp [objGet, hp, hk, ih]

/-- Appending one entry with a different key does not disturb reads. -/
theorem objGet_append_single (m : Obj) (k k' v : String) (hne : k ≠ k') :
    objGet (m ++ [(k', v)]) k = objGet m k := by
  induction m with
  | nil =>
      have h : ¬ k' = k := fun h => hne h.symm
      simp [objGet, h]
  | cons p t ih =>
      by_cases hk : p.1 = k
      · simp [objGet, hk]
      · simp only [List.cons_append, objGet, if_neg hk]
        exact ih

/-- Reading past a prefix in which the key is undefined. -/
theorem objGet_append_of_none (m u : Obj) (k : String) (h : objGet m k = none) :
    objGet (m ++ u) k = objGet u k := by
  induction m with
  | nil => rfl
  | cons p t ih =>
      by_cases hp : p.1 = k
      · simp [objGet, hp] at h
      · simp only [objGet, if_neg hp] at h
        simp only [List.cons_append, objGet, if_neg hp]
        exact ih h

/-- `objInsert` preserves the key sequence when the key is present, and
appends the key otherwise. -/
theorem objInsert_keys (m : Obj) (k v : String) :
    (objInsert m k v).map Prod.fst =
      if (m.map Prod.fst).contains k then m.map Prod.fst
      else m.map Prod.fst ++ [k] := by
  unfold objInsert
  split
  · rw [List.map_map]
    congr 1
    funext p
    by_cases h : p.1 = k <;> simp [Function.comp, h]
  · simp

theorem objInsert_length (m : Obj) (k v : String) :
    (objInsert m k v).length =
      if (m.map Prod.fst).contains k then m.length else m.length + 1 := by
  unfold objInsert
  split <;> simp

/-- Reading back the key just written. -/
theorem objGet_insert_self (m : Obj) (k v : String) :
    objGet (objInsert m k v) k = some v := by
  unfold objInsert
  split
  · rename_i hc
    rw [objGet_replace]
    rcases Option.isSome_iff_exists.mp (objGet_isSome_of_contains m k hc) with ⟨w, hw⟩
    simp [hw]
  · rename_i hc
    rw [objGet_append_of_none m _ k (objGet_eq_none_of_not_contains m k hc)]
    simp [objGet]

/-- Writing one key does not disturb reads of another. -/
theorem objGet_insert_other (m : Obj) (k k' v : String) (hne : k ≠ k') :
    objGet (objInsert m k' v) k = objGet m k := by
  unfold objInsert
  split
  · exact objGet_replace_other m k k' v hne
  · exact objGet_append_single m k k' v hne

theorem string_list_contains_iff (l : List String) (a : String) :
    l.contains a = true ↔ a ∈ l := by
  induction l with
  | nil => simp
  | cons x t ih => simp [List.contains_cons, ih]

/-! ### Lemmas about the conversion fold -/

/-- Processing records whose keys are pairwise distinct and fresh for the
accumulator appends exactly one entry per record, in order, keyed by
`slotKey`. -/
theorem foldl_convertStep_keys (slots : List Slot) (m : Obj)
    (hnd : (slots.map slotKey).Nodup)
    (hfresh : ∀ s ∈ slots, slotKey s ∉ m.map Prod.fst) :
    (slots.foldl convertStep m).map Prod.fst = m.map Prod.fst ++ slots.map slotKey := by
  induction slots generalizing m with
  | nil => simp
  | cons s t ih =>
      simp only [List.foldl_cons, convertStep]
      have hkeys : (objInsert m (slotKey s) s.booked).map Prod.fst =
          m.map Prod.fst ++ [slotKey s] := by
        rw [objInsert_keys]
        rw [if_neg]
        intro hc
        exact hfresh s (List.mem_cons_self s t) ((string_list_contains_iff _ _).mp hc)
      have hnd' : (t.map slotKey).Nodup := (List.nodup_cons.mp (by simpa using hnd)).2
      have hhead : slotKey s ∉ t.map slotKey := (List.nodup_cons.mp (by simpa using hnd)).1
      rw [ih (objInsert m (slotKey s) s.booked) hnd' ?fresh, hkeys]
      · simp
      case fresh =>
        intro s' hs'
        rw [hkeys]
        simp only [List.mem_append, List.mem_singleton]
        rintro (hmem | heq)
        · exact hfresh s' (List.mem_cons_of_mem s hs') hmem
        · exact hhead (heq ▸ List.mem_map_of_mem slotKey hs')

/-- Records whose key differs from `k` leave the value at `k` unchanged. -/
theorem foldl_convertStep_objGet_of_not_key (slots : List Slot) (m : Obj) (k : String)
    (h : ∀ s ∈ slots, slotKey s ≠ k) :
    objGet (slots.foldl convertStep m) k = objGet m k := by
  induction slots generalizing m with
  | nil => rfl
  | cons s t ih =>
      simp only [List.foldl_cons, convertStep]
      rw [ih _ (fun s' hs' => h s' (List.mem_cons_of_mem s hs'))]
      exact objGet_insert_other m k (slotKey s) s.booked
        (Ne.symm (h s (List.mem_cons_self s t)))

/-- With pairwise-distinct keys, every record's `booked` value is readable
at its key in the final table. -/
theorem foldl_convertStep_objGet_mem (slots : List Slot) (m : Obj) (s : Slot)
    (hs : s ∈ slots) (hnd : (slots.map slotKey).Nodup) :
    objGet (slots.foldl convertStep m) (slotKey s) = some s.booked := by
  induction slots generalizing m with
  | nil => cases hs
  | cons s0 t ih =>
      have hnd0 : (∀ x ∈ t, ¬ slotKey x = slotKey s0) ∧ (t.map slotKey).Nodup := by
        simpa using hnd
      simp only [List.foldl_cons, convertStep]
      rcases List.mem_cons.mp hs with rfl | hmem
      · rw [foldl_convertStep_objGet_of_not_key t _ (slotKey s)
          (fun s' hs' => hnd0.1 s' hs')]
        exact objGet_insert_self m (slotKey s) s.booked
      · exact ih _ hmem hnd0.2

/-! ### String facts about the produced keys -/

theorem string_data_append (a b : String) : (a ++ b).data = a.data ++ b.data := rfl

theorem timeRange_data_length (h : Int) (h0 : 0 ≤ h) (h23 : h ≤ 23) :
    (timeRange (some h)).data.length = 13 := by
  interval_cases h <;> decide

theorem timeRange_ne_wrap_label (h : Int) (h0 : 0 ≤ h) (h23 : h ≤ 23) :
    timeRange (some h) ≠ "23:00 - 00:00" := by
  interval_cases h <;> decide

/-- No API-conformant record can produce the key the grid computes for an
hour-23 cell: the stored label ends in `24:00`, the cell's in `00:00`. -/
theorem slotKey_ne_hour23_cellKey (s : Slot) (d : String)
    (hwf : apiWellFormed s = true) :
    slotKey s ≠ getBookingKey d "23:00 - 00:00" := by
  obtain ⟨sd, sh, sb⟩ := s
  cases sd with
  | none => simp [apiWellFormed] at hwf
  | some d0 =>
    cases sh with
    | none => simp [apiWellFormed] at hwf
    | some h =>
      simp only [apiWellFormed, Bool.and_eq_true, decide_eq_true_eq] at hwf
      obtain ⟨h0, h23⟩ := hwf
      intro heq
      simp only [slotKey, getBookingKey, jsDateStr] at heq
      have hdata := congrArg String.data heq
      simp only [string_data_append] at hdata
      have hlen : (timeRange (some h)).data.length =
          ("23:00 - 00:00" : String).data.length :=
        (timeRange_data_length h h0 h23).trans (by decide)
      have htr : (timeRange (some h)).data = ("23:00 - 00:00" : String).data :=
        (List.append_inj' hdata hlen).2
      exact timeRange_ne_wrap_label h h0 h23 (congrArg String.mk htr)

/-! ### The claims -/

/-- C1, counterexample: two `booked_slots` records sharing the same date
and hour collapse into a single lookup-table entry (the second write
overwrites the first), so the table does not contain one entry per input
record for every payload. -/
theorem convert_dup_records_single_entry :
    (convertApiResponse ⟨some [⟨some "2024-06-01", some 9, "yes"⟩,
        ⟨some "2024-06-01", some 9, "no"⟩]⟩).length = 1 ∧
    ([⟨some "2024-06-01", some 9, "yes"⟩,
        (⟨some "2024-06-01", some 9, "no"⟩ : Slot)]).length = 2 := by
  constructor
  · decide
  · rfl

/-- C1 (amended): for every payload whose records have pairwise-distinct
keys, each record contributes exactly one lookup-table entry, keyed by
its date concatenated with `_` and the zero-padded `hour`/`hour + 1`
range label, holding its `booked` field; records that share a date and
hour collapse into one entry (last write wins).  The example record
(date `2024-06-01`, hour 9, booked `yes`) yields the key
`2024-06-01_09:00 - 10:00`. -/
theorem convert_one_entry_per_record (slots : List Slot)
    (hnd : (slots.map slotKey).Nodup) :
    (convertApiResponse ⟨some slots⟩).map Prod.fst = slots.map slotKey ∧
    (convertApiResponse ⟨some slots⟩).length = slots.length ∧
    (∀ s ∈ slots,
      objGet (convertApiResponse ⟨some slots⟩) (slotKey s) = some s.booked) ∧
    slotKey ⟨some "2024-06-01", some 9, "yes"⟩ = "2024-06-01_09:00 - 10:00" := by
  have hkeys : (convertSlots slots).map Prod.fst = slots.map slotKey := by
    have := foldl_convertStep_keys slots [] hnd (by intro s hs; simp)
    simpa [convertSlots] using this
  refine ⟨hkeys, ?_, ?_, by decide⟩
  · have hlen := congrArg List.length hkeys
    simpa using hlen
  · intro s hs
    exact foldl_convertStep_objGet_mem slots [] s hs hnd

theorem convert_one_entry_per_record_witness :
    (convertApiResponse ⟨some [⟨some "2024-06-01", some 9, "yes"⟩]⟩).length = 1 :=
  (convert_one_entry_per_record [⟨some "2024-06-01", some 9, "yes"⟩] (by decide)).2.1

/-- C2: a grid cell is rendered with the reserved styling if and only if
its computed key `date_time` is present in the lookup table with a truthy
(non-empty) value; otherwise it shows the available styling. -/
theorem cell_reserved_iff_key_truthy (bookings : Obj) (d t : String) :
    (cellLabel bookings d t = "RESERVED" ↔
      ∃ v, objGet bookings (getBookingKey d t) = some v ∧ v ≠ "") ∧
    (cellLabel bookings d t = "RESERVED" ∨ cellLabel bookings d t = "KOSONG") := by
  unfold cellLabel isBooked getBookingStatus truthy
  cases hv : objGet bookings (getBookingKey d t) with
  | none => simp
  | some v =>
      by_cases hε : v = ""
      · subst hε
        simp
      · simp [hε]

/-- C3: a record at hour 23 is stored under `{date}_23:00 - 24:00`, but
the fixed time-slot list labels that row `23:00 - 00:00`, a label that no
API-conformant record can produce, so the hour-23 cell always renders
available ("KOSONG"), never reserved. -/
theorem hour23_booking_never_reserved (slots : List Slot) (s : Slot) (d : String)
    (hwf : ∀ s' ∈ slots, apiWellFormed s' = true)
    (hs : s ∈ slots) (hd : s.date = some d) (hh : s.hour = some 23) :
    slotKey s = d ++ "_" ++ "23:00 - 24:00" ∧
    "23:00 - 24:00" ∉ times ∧
    "23:00 - 00:00" ∈ times ∧
    isBooked (convertSlots slots) d "23:00 - 00:00" = false ∧
    cellLabel (convertSlots slots) d "23:00 - 00:00" = "KOSONG" := by
  have hget : objGet (convertSlots slots) (getBookingKey d "23:00 - 00:00") = none := by
    rw [convertSlots, foldl_convertStep_objGet_of_not_key slots []
      (getBookingKey d "23:00 - 00:00")
      (fun s' hs' => slotKey_ne_hour23_cellKey s' d (hwf s' hs'))]
    rfl
  have hbooked : isBooked (convertSlots slots) d "23:00 - 00:00" = false := by
    rw [isBooked, getBookingStatus, hget]
    rfl
  refine ⟨?_, by decide, by decide, hbooked, ?_⟩
  · rw [slotKey, hd, hh]
    rfl
  · rw [cellLabel, hbooked]
    rfl

theorem hour23_booking_never_reserved_witness :
    isBooked (convertSlots [⟨some "2024-06-01", some 23, "yes"⟩])
      "2024-06-01" "23:00 - 00:00" = false :=
  (hour23_booking_never_reserved [⟨some "2024-06-01", some 23, "yes"⟩]
    ⟨some "2024-06-01", some 23, "yes"⟩ "2024-06-01"
    (by decide) (by decide) rfl rfl).2.2.2.1

/-- C4: for `endDate ≥ startDate` the derived day sequence has exactly
`endDate - startDate + 1` entries, entry `i` is `startDate + i` days, and
the sequence is strictly ascending. -/
theorem dates_inclusive_count_ascending (s e : Int) (h : s ≤ e) :
    ((dates s e).length : Int) = e - s + 1 ∧
    (∀ (i : Nat) (hi : i < (dates s e).length), (dates s e)[i] = s + i) ∧
    (dates s e).Pairwise (· < ·) := by
  refine ⟨?_, ?_, ?_⟩
  · simp only [dates, List.length_map, List.length_range]
    rw [Int.toNat_of_nonneg (by omega)]
  · intro i hi
    simp [dates]
  · simp only [dates]
    refine List.Pairwise.map _ (fun a b hab => ?_) (List.pairwise_lt_range _)
    omega

theorem dates_inclusive_count_ascending_witness :
    ((dates 0 2).length : Int) = 2 - 0 + 1 ∧
    (∀ (i : Nat) (hi : i < (dates 0 2).length), (dates 0 2)[i] = 0 + i) ∧
    (dates 0 2).Pairwise (· < ·) :=
  dates_inclusive_count_ascending 0 2 (by decide)

/-- C5: for `endDate < startDate` the derived day sequence is empty (the
derivation is total, so nothing throws) and the grid has zero day
columns. -/
theorem dates_empty_of_inverted (s e : Int) (h : e < s) :
    dates s e = [] ∧ (dates s e).length = 0 := by
  have hz : (e - s + 1).toNat = 0 := by omega
  constructor
  · simp [dates, hz]
  · simp [dates, hz]

theorem dates_empty_of_inverted_witness :
    dates 5 3 = [] ∧ (dates 5 3).length = 0 :=
  dates_empty_of_inverted 5 3 (by decide)

/-- C6: a failed fetch sets the static localized error message and leaves
the booking lookup table exactly as it was before the call; on first load
that prior table is the empty one. -/
theorem fetch_failure_shows_error_keeps_table (st : ComponentState) :
    (fetchBookings st .failure).error = some "Gagal memuat data booking" ∧
    (fetchBookings st .failure).bookings = st.bookings ∧
    initialState.bookings = [] :=
  ⟨rfl, rfl, rfl⟩

/-- C7: a successful fetch replaces the lookup table with exactly the
transformation of the fetched response, independently of whatever table
was held before (no merge, no incremental update). -/
theorem fetch_success_replaces_table (st st' : ComponentState) (data : ApiResponse) :
    (fetchBookings st (.success data)).bookings = convertApiResponse data ∧
    (fetchBookings st (.success data)).bookings =
      (fetchBookings st' (.success data)).bookings :=
  ⟨rfl, rfl⟩

/-- C8, counterexample: a record with both `date` and `hour` missing is
not skipped — JavaScript stringifies the missing fields, and the record
contributes the entry keyed `undefined_undefined:00 - NaN:00`. -/
theorem malformed_record_still_stored :
    convertApiResponse ⟨some [⟨none, none, "yes"⟩]⟩ =
      [("undefined_undefined:00 - NaN:00", "yes")] := by
  decide

/-- C8 (amended): a record missing its `hour` or `date` field still
contributes exactly one entry (its key built from `undefined`/`NaN`
stringifications), and the remaining records are processed independently
from the table so obtained. -/
theorem malformed_record_contributes_entry (s : Slot) (rest : List Slot)
    (hmal : s.date = none ∨ s.hour = none) :
    convertApiResponse ⟨some [s]⟩ = [(slotKey s, s.booked)] ∧
    convertApiResponse ⟨some (s :: rest)⟩ =
      rest.foldl convertStep [(slotKey s, s.booked)] :=
  ⟨rfl, rfl⟩

theorem malformed_record_contributes_entry_witness :
    convertApiResponse ⟨some [⟨none, some 9, "yes"⟩]⟩ =
      [(slotKey ⟨none, some 9, "yes"⟩, "yes")] :=
  (malformed_record_contributes_entry ⟨none, some 9, "yes"⟩ [] (Or.inl rfl)).1

/-- C9: the response transformation is a deterministic function of its
input — identical payloads produce identical tables, with the same keys
and the same values. -/
theorem convert_deterministic_on_input (p q : ApiResponse) (h : p = q) :
    convertApiResponse p = convertApiResponse q ∧
    (convertApiResponse p).map Prod.fst = (convertApiResponse q).map Prod.fst ∧
    (convertApiResponse p).map Prod.snd = (convertApiResponse q).map Prod.snd := by
  subst h
  exact ⟨rfl, rfl, rfl⟩

theorem convert_deterministic_on_input_witness :
    convertApiResponse ⟨some [⟨some "2024-06-01", some 9, "yes"⟩]⟩ =
      convertApiResponse ⟨some [⟨some "2024-06-01", some 9, "yes"⟩]⟩ :=
  (convert_deterministic_on_input ⟨some [⟨some "2024-06-01", some 9, "yes"⟩]⟩
    ⟨some [⟨some "2024-06-01", some 9, "yes"⟩]⟩ rfl).1

/-- C10: the time-slot list is a fixed sequence of exactly 22 hourly
ranges: it contains the label of every hour of the day except the two
ranges between 12:00 and 14:00, and it wraps past midnight — position 16
is `23:00 - 00:00`, followed by `00:00 - 01:00` through `04:00 - 05:00`;
the entries are pairwise distinct.  (`times` is a closed constant and so
depends on no state or input.) -/
theorem times_fixed_22_slots :
    times.length = 22 ∧
    "12:00 - 13:00" ∉ times ∧
    "13:00 - 14:00" ∉ times ∧
    (∀ h : Nat, h < 24 → ((gridLabel h ∈ times) ↔ (h ≠ 12 ∧ h ≠ 13))) ∧
    times.get? 16 = some "23:00 - 00:00" ∧
    times.drop 17 = ["00:00 - 01:00", "01:00 - 02:00", "02:00 - 03:00",
      "03:00 - 04:00", "04:00 - 05:00"] ∧
    times.Nodup := by
  decide

end KindyPadel
